import Mathlib

/-!
Verification of the grammar correction decision engine
(`src/grammar_app/services.py`): the rule cascade
(`_apply_basic_grammar_rules`), the model-arm sanitizer
(`_correct_with_ai`), and the orchestration policy
(`correct_grammar`).  The Python regular-expression substitutions
(`re.sub` with `re.IGNORECASE`) are embedded by a small backtracking
matcher covering exactly the constructs the rule table uses: literals,
character classes, `[a-z]` ranges, `\b`, `\s`, `\w`, alternation,
greedy `*` and `+` over single-character items, and capture groups
with `\n` references in the replacement.  Case handling follows the
ASCII semantics of `Char.toLower` and `Char.toUpper`, matching the
ASCII inputs the service is exercised with.
-/

namespace GrammarApp

/-- Whitespace recognised by Python `str.strip` and by the class `\s`
(ASCII range): space, tab, newline, carriage return, vertical tab,
form feed. -/
def isPySpace (c : Char) : Bool :=
  c == ' ' || c == '\t' || c == '\n' || c == '\r' || c == '\x0b' || c == '\x0c'

/-- List-level embedding of Python `str.strip`: drop whitespace from
both ends. -/
def pyStripL (l : List Char) : List Char :=
  ((l.dropWhile isPySpace).reverse.dropWhile isPySpace).reverse

/-- Embedding of Python `str.strip`. -/
def pyStrip (s : String) : String :=
  ⟨pyStripL s.data⟩

/-- Lowercase an entire string (used only to state case-insensitive
comparisons in claims). -/
def lowerStr (s : String) : String :=
  ⟨s.data.map Char.toLower⟩

/-- List-level capitalization of a lowercase first character. -/
def capitalizeFirstL : List Char → List Char
  | [] => []
  | c :: cs => if c.isLower then c.toUpper :: cs else c :: cs

/-- Embedding of the Python fragment
`if corrected and corrected[0].islower(): corrected = corrected[0].upper() + corrected[1:]`
from `_apply_basic_grammar_rules`. -/
def capitalizeFirst (s : String) : String :=
  ⟨capitalizeFirstL s.data⟩

/-! Char lemmas about the ASCII case maps, used to show that matching
is insensitive to the final capitalization step. -/

theorem char_toNat_ofNat_valid (n : Nat) (h : n.isValidChar) :
    (Char.ofNat n).toNat = n := by
  simp [Char.ofNat, h, Char.ofNatAux, Char.toNat, UInt32.toNat, BitVec.toNat_ofNatLt]

theorem char_toNat_inj {c d : Char} (h : c.toNat = d.toNat) : c = d := by
  have hc := Char.ofNat_toNat c
  rw [h, Char.ofNat_toNat d] at hc
  exact hc.symm

theorem isLower_toNat (c : Char) (h : c.isLower = true) :
    97 ≤ c.toNat ∧ c.toNat ≤ 122 := by
  simp only [Char.isLower, Bool.and_eq_true, decide_eq_true_eq, UInt32.le_def,
    BitVec.le_def] at h
  simpa [Char.toNat, UInt32.toNat] using h

theorem toNat_isLower (c : Char) (h1 : 97 ≤ c.toNat) (h2 : c.toNat ≤ 122) :
    c.isLower = true := by
  simp only [Char.isLower, Bool.and_eq_true, decide_eq_true_eq, UInt32.le_def,
    BitVec.le_def]
  simpa [Char.toNat, UInt32.toNat] using And.intro h1 h2

theorem toUpper_toNat_of_isLower (c : Char) (h : c.isLower = true) :
    c.toUpper.toNat = c.toNat - 32 := by
  obtain ⟨h1, h2⟩ := isLower_toNat c h
  have hv : (c.toNat - 32).isValidChar := by left; omega
  simp only [Char.toUpper]
  rw [if_pos ⟨by omega, by omega⟩]
  exact char_toNat_ofNat_valid _ hv

theorem toLower_eq_self_of_not_upper (c : Char)
    (h : ¬ (65 ≤ c.toNat ∧ c.toNat ≤ 90)) : c.toLower = c := by
  simp only [Char.toLower]
  rw [if_neg]
  intro hr
  exact h ⟨hr.1, hr.2⟩

theorem toLower_toUpper_of_isLower (c : Char) (h : c.isLower = true) :
    c.toUpper.toLower = c := by
  obtain ⟨h1, h2⟩ := isLower_toNat c h
  have ht := toUpper_toNat_of_isLower c h
  simp only [Char.toLower, ht]
  rw [if_pos ⟨by omega, by omega⟩]
  have h32 : c.toNat - 32 + 32 = c.toNat := by omega
  rw [h32, Char.ofNat_toNat]

theorem toLower_eq_self_of_isLower (c : Char) (h : c.isLower = true) :
    c.toLower = c := by
  obtain ⟨h1, h2⟩ := isLower_toNat c h
  exact toLower_eq_self_of_not_upper c (by omega)

theorem isLower_toUpper_false (c : Char) (h : c.isLower = true) :
    c.toUpper.isLower = false := by
  obtain ⟨h1, h2⟩ := isLower_toNat c h
  have ht := toUpper_toNat_of_isLower c h
  by_contra hc
  simp only [Bool.not_eq_false] at hc
  obtain ⟨g1, g2⟩ := isLower_toNat _ hc
  omega

theorem isPySpace_iff_toNat (c : Char) :
    isPySpace c = true ↔
      (c.toNat = 32 ∨ c.toNat = 9 ∨ c.toNat = 10 ∨ c.toNat = 13 ∨
       c.toNat = 11 ∨ c.toNat = 12) := by
  constructor
  · intro h
    simp only [isPySpace, Bool.or_eq_true, beq_iff_eq] at h
    rcases h with ((((h | h) | h) | h) | h) | h <;> subst h <;> simp [Char.toNat]
  · intro h
    have : c = ' ' ∨ c = '\t' ∨ c = '\n' ∨ c = '\r' ∨ c = '\x0b' ∨ c = '\x0c' := by
      rcases h with h | h | h | h | h | h
      · exact Or.inl (char_toNat_inj h)
      · exact Or.inr (Or.inl (char_toNat_inj h))
      · exact Or.inr (Or.inr (Or.inl (char_toNat_inj h)))
      · exact Or.inr (Or.inr (Or.inr (Or.inl (char_toNat_inj h))))
      · exact Or.inr (Or.inr (Or.inr (Or.inr (Or.inl (char_toNat_inj h)))))
      · exact Or.inr (Or.inr (Or.inr (Or.inr (Or.inr (char_toNat_inj h)))))
    rcases this with h | h | h | h | h | h <;> subst h <;> decide

theorem isPySpace_toUpper (c : Char) : isPySpace c.toUpper = isPySpace c := by
  by_cases h : c.isLower = true
  · obtain ⟨h1, h2⟩ := isLower_toNat c h
    have ht := toUpper_toNat_of_isLower c h
    have l1 : isPySpace c = false := by
      by_contra hc
      simp only [Bool.not_eq_false] at hc
      have := (isPySpace_iff_toNat c).mp hc
      omega
    have l2 : isPySpace c.toUpper = false := by
      by_contra hc
      simp only [Bool.not_eq_false] at hc
      have := (isPySpace_iff_toNat c.toUpper).mp hc
      omega
    rw [l1, l2]
  · have : c.toUpper = c := by
      simp only [Char.isLower, Bool.and_eq_true, decide_eq_true_eq] at h
      simp only [Char.toUpper]
      rw [if_neg]
      intro hr
      apply h
      constructor
      · simp only [UInt32.le_def, BitVec.le_def]
        simpa [Char.toNat, UInt32.toNat] using hr.1
      · simp only [UInt32.le_def, BitVec.le_def]
        simpa [Char.toNat, UInt32.toNat] using hr.2
    rw [this]

/-! Regular-expression engine covering the constructs of the rule
table in `_apply_basic_grammar_rules`. -/

/-- Single-character items: a literal (matched case-insensitively
against lowercased text), the class `\s`, the class `\w`, an explicit
set such as `[aeiou]`, and a range such as `[a-z]`. -/
inductive CC where
  | one (c : Char)
  | ws
  | wch
  | set (cs : List Char)
  | rng (lo hi : Char)
  deriving DecidableEq

/-- Word characters in the ASCII reading of the class `\w`, evaluated
on lowercased text. -/
def isWordL (c : Char) : Bool :=
  c.isLower || c.isDigit || c == '_'

/-- Match of a single-character item against one lowercased text
character. -/
def ccMatch : CC → Char → Bool
  | .one p, c => p.toLower == c
  | .ws, c => isPySpace c
  | .wch, c => isWordL c
  | .set cs, c => cs.contains c
  | .rng lo hi, c => lo ≤ c && c ≤ hi

/-- Regular expressions: empty, one-character item, word boundary,
concatenation, alternation, greedy star over a one-character item,
and numbered capture group. -/
inductive RE where
  | eps
  | ch (k : CC)
  | wb
  | seq (a b : RE)
  | alt (a b : RE)
  | star (k : CC)
  | grp (n : Nat) (a : RE)
  deriving DecidableEq

/-- Captures of one candidate match: (group number, start offset
relative to the match position, length). -/
abbrev Caps := List (Nat × Nat × Nat)

/-- Word-boundary test between the previous character and the head of
the remaining text, as in the Python `\b`. -/
def wordBoundary (prev : Option Char) (s : List Char) : Bool :=
  let pw := match prev with | none => false | some c => isWordL c
  let nw := match s with | [] => false | c :: _ => isWordL c
  pw != nw

/-- Character preceding the position reached after consuming `n`
characters of `s` (the incoming `prev` when `n = 0`). -/
def prevAt (prev : Option Char) (s : List Char) (n : Nat) : Option Char :=
  if n = 0 then prev else s[n - 1]?

/-- Shift capture offsets by the number of characters consumed before
them. -/
def shiftCaps (n : Nat) (cs : Caps) : Caps :=
  cs.map (fun x => (x.1, n + x.2.1, x.2.2))

/-- Descending list n, n-1, ..., 0: the greedy preference order for a
star over a run of matching characters. -/
def descRange : Nat → List Nat
  | 0 => [0]
  | n + 1 => (n + 1) :: descRange n

/-- Backtracking matcher.  The text and the previous character are
already lowercased.  Returns the candidate matches at the current
position, in the priority order the Python engine explores them:
each candidate is the number of consumed characters together with its
group captures. -/
def mrun : RE → Option Char → List Char → List (Nat × Caps)
  | .eps, _, _ => [(0, [])]
  | .ch _, _, [] => []
  | .ch k, _, c :: _ => if ccMatch k c then [(1, [])] else []
  | .wb, prev, s => if wordBoundary prev s then [(0, [])] else []
  | .seq a b, prev, s =>
      (mrun a prev s).flatMap (fun p =>
        (mrun b (prevAt prev s p.1) (s.drop p.1)).map (fun q =>
          (p.1 + q.1, p.2 ++ shiftCaps p.1 q.2)))
  | .alt a b, prev, s => mrun a prev s ++ mrun b prev s
  | .star k, _, s => (descRange (s.takeWhile (ccMatch k)).length).map (fun i => (i, []))
  | .grp n a, prev, s => (mrun a prev s).map (fun p => (p.1, (n, 0, p.1) :: p.2))

/-- Items of a replacement template: literal text or a group
reference. -/
inductive TItem where
  | str (s : String)
  | grp (n : Nat)
  deriving DecidableEq

/-- Replacement template, e.g. group 1 followed by literal text. -/
abbrev Tmpl := List TItem

/-- Position and length of a referenced group (first binding wins;
every group of the rule table binds at most once per match). -/
def capLookup (caps : Caps) (i : Nat) : Nat × Nat :=
  match caps.find? (fun x => x.1 == i) with
  | some x => x.2
  | none => (0, 0)

/-- Expand a replacement template against the original (not
lowercased) text at the match position. -/
def expandT (tmpl : Tmpl) (s : List Char) (caps : Caps) : List Char :=
  tmpl.flatMap (fun it =>
    match it with
    | .str t => t.data
    | .grp i =>
        let p := capLookup caps i
        (s.drop p.1).take p.2)

/-- Scanning loop of `re.sub`: at each position try the pattern; on a
match emit the expanded replacement and continue after the consumed
characters, otherwise keep the character and advance by one.  The
previous original character is tracked for word boundaries.  None of
the rule patterns can match the empty string; a zero-width candidate
is treated as no match. -/
def subScanF : Nat → RE → Tmpl → Option Char → List Char → List Char
  | 0, _, _, _, s => s
  | fuel + 1, re, tmpl, prev, s =>
      match s with
      | [] => []
      | c :: cs =>
          match (mrun re (prev.map Char.toLower) ((c :: cs).map Char.toLower)).head? with
          | some p =>
              if p.1 = 0 then c :: subScanF fuel re tmpl (some c) cs
              else
                expandT tmpl (c :: cs) p.2 ++
                  subScanF fuel re tmpl (prevAt prev (c :: cs) p.1) ((c :: cs).drop p.1)
          | none => c :: subScanF fuel re tmpl (some c) cs

/-- Scan with fuel equal to the text length, which every step
strictly consumes, so the fuel never runs out. -/
def subScan (re : RE) (tmpl : Tmpl) (prev : Option Char) (s : List Char) : List Char :=
  subScanF s.length re tmpl prev s

/-- Embedding of one `re.sub(pattern, replacement, buffer, flags=re.IGNORECASE)`
call. -/
def reSub (re : RE) (tmpl : Tmpl) (s : String) : String :=
  ⟨subScan re tmpl none s.data⟩

/-- Search loop: does the pattern match at some position of the
text? -/
def findAux (re : RE) (prev : Option Char) (s : List Char) : Bool :=
  match s with
  | [] => !(mrun re (prev.map Char.toLower) []).isEmpty
  | c :: cs =>
      !(mrun re (prev.map Char.toLower) ((c :: cs).map Char.toLower)).isEmpty
        || findAux re (some c) cs

/-- Embedding of `re.search` as a Boolean: the pattern matches
somewhere in the string. -/
def found (re : RE) (s : String) : Bool := findAux re none s.data

/-! Pattern construction helpers. -/

/-- Literal word: sequence of case-insensitive character literals. -/
def lits (s : String) : RE :=
  s.data.foldr (fun c r => RE.seq (RE.ch (CC.one c)) r) RE.eps

/-- Sequence of several patterns. -/
def seqs (l : List RE) : RE := l.foldr RE.seq RE.eps

/-- Alternation over a list, first alternative preferred. -/
def altsL : List RE → RE
  | [] => RE.eps
  | [a] => a
  | a :: rest => RE.alt a (altsL rest)

/-- Numbered capture group. -/
def g (n : Nat) (r : RE) : RE := RE.grp n r

/-- Word boundary. -/
def wb : RE := RE.wb

/-- Pattern for one or more whitespace characters. -/
def wsP : RE := RE.seq (RE.ch CC.ws) (RE.star CC.ws)

/-- Pattern for zero or more whitespace characters. -/
def wsS : RE := RE.star CC.ws

/-- Pattern for one or more word characters. -/
def wP : RE := RE.seq (RE.ch CC.wch) (RE.star CC.wch)

/-- Character-set class from an explicit string of characters. -/
def clsSet (s : String) : RE := RE.ch (CC.set s.data)

/-- The range class for a lowercase letter. -/
def az : CC := CC.rng 'a' 'z'

/-- The rule table of `_apply_basic_grammar_rules`, in declaration
order, each entry the pattern and its replacement template. -/
def corrections : List (RE × Tmpl) := [
  -- Subject-verb agreement for is vs are
  (seqs [wb, g 1 (lits "you"), wsP, g 2 (lits "is"), wb], [TItem.grp 1, TItem.str " are"]),
  (seqs [wb, g 1 (lits "we"), wsP, g 2 (lits "is"), wb], [TItem.grp 1, TItem.str " are"]),
  (seqs [wb, g 1 (lits "they"), wsP, g 2 (lits "is"), wb], [TItem.grp 1, TItem.str " are"]),
  (seqs [wb, g 1 (lits "I"), wsP, g 2 (lits "are"), wb], [TItem.grp 1, TItem.str " am"]),
  (seqs [wb, g 1 (lits "he"), wsP, g 2 (lits "are"), wb], [TItem.grp 1, TItem.str " is"]),
  (seqs [wb, g 1 (lits "she"), wsP, g 2 (lits "are"), wb], [TItem.grp 1, TItem.str " is"]),
  (seqs [wb, g 1 (lits "it"), wsP, g 2 (lits "are"), wb], [TItem.grp 1, TItem.str " is"]),
  -- Subject-verb agreement - more specific rules
  (seqs [wb, g 1 (altsL [lits "he", lits "she", lits "it"]), wsP,
     g 2 (altsL [lits "am", lits "are"]), wsP], [TItem.grp 1, TItem.str " is "]),
  (seqs [wb, g 1 (lits "I"), wsP,
     g 2 (altsL [lits "are", lits "is"]), wsP], [TItem.grp 1, TItem.str " am "]),
  (seqs [wb, g 1 (altsL [lits "we", lits "you", lits "they"]), wsP,
     g 2 (altsL [lits "am", lits "is"]), wsP], [TItem.grp 1, TItem.str " are "]),
  (seqs [wb, g 1 (altsL [lits "I", lits "he", lits "she", lits "it"]), wsP,
     g 2 (altsL [lits "go", lits "goes"]), wsP], [TItem.grp 1, TItem.str " goes "]),
  (seqs [wb, g 1 (altsL [lits "we", lits "you", lits "they"]), wsP,
     g 2 (lits "goes"), wsP], [TItem.grp 1, TItem.str " go "]),
  -- Past perfect tense corrections
  (seqs [wb, lits "I", wsP, lits "had", wsP, lits "done", wsP, lits "playing", wb],
     [TItem.str "I had finished playing"]),
  (seqs [wb, lits "I", wsP, lits "had", wsP, lits "done", wsP,
     g 1 (seqs [wP, lits "ing"]), wb], [TItem.str "I had finished ", TItem.grp 1]),
  (seqs [wb, g 1 (altsL [lits "he", lits "she", lits "it"]), wsP, lits "had", wsP,
     lits "done", wsP, g 2 (seqs [wP, lits "ing"]), wb],
     [TItem.grp 1, TItem.str " had finished ", TItem.grp 2]),
  (seqs [wb, g 1 (altsL [lits "we", lits "you", lits "they"]), wsP, lits "had", wsP,
     lits "done", wsP, g 2 (seqs [wP, lits "ing"]), wb],
     [TItem.grp 1, TItem.str " had finished ", TItem.grp 2]),
  -- Present perfect tense corrections
  (seqs [wb, lits "I", wsP, lits "have", wsP, lits "done", wsP, lits "playing", wb],
     [TItem.str "I have finished playing"]),
  (seqs [wb, lits "I", wsP, lits "have", wsP, lits "done", wsP,
     g 1 (seqs [wP, lits "ing"]), wb], [TItem.str "I have finished ", TItem.grp 1]),
  -- Articles
  (seqs [wb, g 1 (lits "a"), wsP, g 2 (seqs [clsSet "aeiou", RE.star az]), wb],
     [TItem.str "an ", TItem.grp 2]),
  (seqs [wb, g 1 (lits "an"), wsP,
     g 2 (seqs [clsSet "bcdfghjklmnpqrstvwxyz", RE.star az]), wb],
     [TItem.str "a ", TItem.grp 2]),
  -- Common contractions
  (seqs [wb, g 1 (altsL [lits "do not", lits "don\x27t"]), wb], [TItem.str "don\x27t"]),
  (seqs [wb, g 1 (altsL [lits "does not", lits "doesn\x27t"]), wb], [TItem.str "doesn\x27t"]),
  (seqs [wb, g 1 (altsL [lits "can not", lits "cannot", lits "can\x27t"]), wb],
     [TItem.str "can\x27t"]),
  (seqs [wb, g 1 (altsL [lits "will not", lits "won\x27t"]), wb], [TItem.str "won\x27t"]),
  (seqs [wb, g 1 (altsL [lits "should not", lits "shouldn\x27t"]), wb],
     [TItem.str "shouldn\x27t"]),
  (seqs [wb, g 1 (altsL [lits "would not", lits "wouldn\x27t"]), wb],
     [TItem.str "wouldn\x27t"]),
  (seqs [wb, g 1 (altsL [lits "could not", lits "couldn\x27t"]), wb],
     [TItem.str "couldn\x27t"]),
  (seqs [wb, g 1 (altsL [lits "has not", lits "hasn\x27t"]), wb], [TItem.str "hasn\x27t"]),
  (seqs [wb, g 1 (altsL [lits "have not", lits "haven\x27t"]), wb], [TItem.str "haven\x27t"]),
  (seqs [wb, g 1 (altsL [lits "had not", lits "hadn\x27t"]), wb], [TItem.str "hadn\x27t"]),
  (seqs [wb, g 1 (altsL [lits "is not", lits "isn\x27t"]), wb], [TItem.str "isn\x27t"]),
  (seqs [wb, g 1 (altsL [lits "are not", lits "aren\x27t"]), wb], [TItem.str "aren\x27t"]),
  (seqs [wb, g 1 (altsL [lits "was not", lits "wasn\x27t"]), wb], [TItem.str "wasn\x27t"]),
  (seqs [wb, g 1 (altsL [lits "were not", lits "weren\x27t"]), wb], [TItem.str "weren\x27t"]),
  -- Fix common informal contractions
  (seqs [wb, g 1 (lits "dont"), wb], [TItem.str "don\x27t"]),
  (seqs [wb, g 1 (lits "doesnt"), wb], [TItem.str "doesn\x27t"]),
  (seqs [wb, g 1 (lits "cant"), wb], [TItem.str "can\x27t"]),
  (seqs [wb, g 1 (lits "wont"), wb], [TItem.str "won\x27t"]),
  (seqs [wb, g 1 (lits "shouldnt"), wb], [TItem.str "shouldn\x27t"]),
  (seqs [wb, g 1 (lits "wouldnt"), wb], [TItem.str "wouldn\x27t"]),
  (seqs [wb, g 1 (lits "couldnt"), wb], [TItem.str "couldn\x27t"]),
  (seqs [wb, g 1 (lits "hasnt"), wb], [TItem.str "hasn\x27t"]),
  (seqs [wb, g 1 (lits "havent"), wb], [TItem.str "haven\x27t"]),
  (seqs [wb, g 1 (lits "hadnt"), wb], [TItem.str "hadn\x27t"]),
  (seqs [wb, g 1 (lits "isnt"), wb], [TItem.str "isn\x27t"]),
  (seqs [wb, g 1 (lits "arent"), wb], [TItem.str "aren\x27t"]),
  (seqs [wb, g 1 (lits "wasnt"), wb], [TItem.str "wasn\x27t"]),
  (seqs [wb, g 1 (lits "werent"), wb], [TItem.str "weren\x27t"]),
  -- Capitalization fixes
  (seqs [wb, g 1 (lits "i"), wb], [TItem.str "I"]),
  (seqs [wb, g 1 (altsL [lits "hello", lits "hi"]), wb], [TItem.str "Hello"]),
  (seqs [wb, g 1 (altsL [lits "bye", lits "goodbye"]), wb], [TItem.str "Goodbye"]),
  -- Advanced grammar rules
  (seqs [wb, g 1 (lits "me"), wsP, lits "and", wsP,
     g 2 (altsL [lits "him", lits "her", lits "them"]), wb], [TItem.grp 2, TItem.str " and I"]),
  (seqs [wb, g 1 (altsL [lits "him", lits "her", lits "them"]), wsP, lits "and", wsP,
     g 2 (lits "me"), wb], [TItem.grp 1, TItem.str " and I"]),
  (seqs [wb, g 1 (lits "me"), wsP, lits "and", wsP, g 2 (lits "I"), wb],
     [TItem.grp 2, TItem.str " and I"]),
  (seqs [wb, g 1 (lits "I"), wsP, lits "and", wsP, g 2 (lits "me"), wb],
     [TItem.str "I and I"]),
  -- Fix common informal phrases
  (seqs [wb, g 1 (lits "gonna"), wb], [TItem.str "going to"]),
  (seqs [wb, g 1 (lits "wanna"), wb], [TItem.str "want to"]),
  (seqs [wb, g 1 (lits "gotta"), wb], [TItem.str "got to"]),
  (seqs [wb, g 1 (lits "lemme"), wb], [TItem.str "let me"]),
  (seqs [wb, g 1 (lits "gimme"), wb], [TItem.str "give me"]),
  -- Fix double negatives
  (seqs [wb, g 1 (lits "not"), wsP, wP, wsP, g 2 (lits "not"), wb],
     [TItem.grp 1, TItem.str " ", TItem.grp 2]),
  -- Fix common word confusions
  (seqs [wb, g 1 (lits "their"), wsP, g 2 (lits "there"), wb],
     [TItem.str "they\x27re there"]),
  (seqs [wb, g 1 (lits "there"), wsP, g 2 (lits "their"), wb],
     [TItem.str "there they\x27re"]),
  (seqs [wb, g 1 (lits "your"), wsP, g 2 (lits "you\x27re"), wb], [TItem.str "you\x27re"]),
  (seqs [wb, g 1 (lits "you\x27re"), wsP, g 2 (lits "your"), wb], [TItem.str "your"]),
  (seqs [wb, g 1 (lits "its"), wsP, g 2 (lits "it\x27s"), wb], [TItem.str "it\x27s"]),
  (seqs [wb, g 1 (lits "it\x27s"), wsP, g 2 (lits "its"), wb], [TItem.str "its"]),
  -- Punctuation
  (seqs [wsP, g 1 (clsSet ".!?")], [TItem.grp 1]),
  (seqs [g 1 (clsSet ".!?"), wsS, g 2 (RE.ch az)], [TItem.grp 1, TItem.str " ", TItem.grp 2]),
  (wsP, [TItem.str " "])]

/-! The grammar correction service itself. -/

/-- Embedding of Python `str.replace` on character lists: every
non-overlapping occurrence of `old`, scanned left to right, is
replaced by `new`. -/
def replaceF : Nat → List Char → List Char → List Char → List Char
  | 0, _, _, s => s
  | fuel + 1, old, new, s =>
      match s with
      | [] => []
      | c :: cs =>
          if old.isPrefixOf (c :: cs) ∧ old ≠ [] then
            new ++ replaceF fuel old new ((c :: cs).drop old.length)
          else c :: replaceF fuel old new cs

/-- Replacement scan with fuel equal to the text length, which every
step strictly consumes. -/
def replaceL (old new : List Char) (s : List Char) : List Char :=
  replaceF s.length old new s

/-- Embedding of Python `str.replace`. -/
def pyReplace (s old new : String) : String :=
  ⟨replaceL old.data new.data s.data⟩

/-- Embedding of Python `str.startswith`. -/
def pyStartsWith (s p : String) : Bool :=
  p.data.isPrefixOf s.data

/-- Prefix cleanup of `_correct_with_ai`: the chain of `startswith`
checks, each removing every occurrence of its prefix and stripping
the result. -/
def sanitizeOutput (corrected : String) : String :=
  if pyStartsWith corrected "grammar:" then
    pyStrip (pyReplace corrected "grammar:" "")
  else if pyStartsWith corrected "Correct the grammar in this text:" then
    pyStrip (pyReplace corrected "Correct the grammar in this text:" "")
  else if pyStartsWith corrected "Corrected text:" then
    pyStrip (pyReplace corrected "Corrected text:" "")
  else if pyStartsWith corrected "Corrected:" then
    pyStrip (pyReplace corrected "Corrected:" "")
  else corrected

/-- Embedding of `_correct_with_ai`.  The pipeline call is a value of
type `Except Unit (List String)`: an exception raised by the model, or
the list of generated sequences.  Every failure path returns the
input text. -/
def correctWithAi (pipeOut : Except Unit (List String)) (text : String) : String :=
  match pipeOut with
  | .error _ => text
  | .ok [] => text
  | .ok (gtext :: _) =>
      let corrected := sanitizeOutput (pyStrip gtext)
      if corrected = text ∨ corrected = "" then text else corrected

/-- Fold of the rule table over the evolving buffer, in declaration
order. -/
def runCorrections (text : String) : String :=
  corrections.foldl (fun buf pr => reSub pr.1 pr.2 buf) text

/-- Embedding of `_apply_basic_grammar_rules`: empty input returned
unchanged, otherwise the rule fold, then capitalization of a
lowercase first character, then `strip`. -/
def applyBasicGrammarRules (text : String) : String :=
  if text = "" then text
  else pyStrip (capitalizeFirst (runCorrections text))

/-- Embedding of `correct_grammar`, instrumented with call counters:
the result together with the number of rule-cascade invocations and
the number of model-arm invocations.  The configuration flags
`USE_BASIC_RULES_FIRST` and `USE_AI_MODEL_FALLBACK` and the health of
the pipeline are parameters, as is the pipeline outcome. -/
def correctGrammarTr (rulesFirst aiFallback pipelineLoaded : Bool)
    (pipeOut : Except Unit (List String)) (text : String) : String × Nat × Nat :=
  if text = "" ∨ pyStrip text = "" then (text, 0, 0)
  else if rulesFirst = true ∧ applyBasicGrammarRules text ≠ text then
    (applyBasicGrammarRules text, 1, 0)
  else if (pipelineLoaded = true ∧ aiFallback = true) ∧
      correctWithAi pipeOut text ≠ "" ∧ correctWithAi pipeOut text ≠ text then
    (correctWithAi pipeOut text, if rulesFirst = true then 1 else 0, 1)
  else if rulesFirst = false ∧ applyBasicGrammarRules text ≠ text then
    (applyBasicGrammarRules text, 1,
      if pipelineLoaded = true ∧ aiFallback = true then 1 else 0)
  else (text, 1, if pipelineLoaded = true ∧ aiFallback = true then 1 else 0)

/-- Result of `correct_grammar`. -/
def correctGrammar (rulesFirst aiFallback pipelineLoaded : Bool)
    (pipeOut : Except Unit (List String)) (text : String) : String :=
  (correctGrammarTr rulesFirst aiFallback pipelineLoaded pipeOut text).1

/-- The RuleCascadeEngine contract as the specification words it:
empty or whitespace-only input returned unchanged immediately;
otherwise the rule fold over the buffer followed by capitalization of
a lowercase first character, the buffer then returned with no further
transformation. -/
def ruleCascadeSpec (text : String) : String :=
  if text = "" ∨ pyStrip text = "" then text
  else capitalizeFirst (runCorrections text)

/-! Lemmas about the engine. -/

theorem toLower_toNat_of_upper (c : Char) (h1 : 65 ≤ c.toNat) (h2 : c.toNat ≤ 90) :
    c.toLower.toNat = c.toNat + 32 := by
  have hv : (c.toNat + 32).isValidChar := by left; omega
  simp only [Char.toLower]
  rw [if_pos ⟨h1, h2⟩]
  exact char_toNat_ofNat_valid _ hv

theorem isPySpace_toLower (c : Char) : isPySpace c.toLower = isPySpace c := by
  by_cases h : 65 ≤ c.toNat ∧ c.toNat ≤ 90
  · have ht := toLower_toNat_of_upper c h.1 h.2
    have l1 : isPySpace c = false := by
      by_contra hc
      simp only [Bool.not_eq_false] at hc
      have := (isPySpace_iff_toNat c).mp hc
      omega
    have l2 : isPySpace c.toLower = false := by
      by_contra hc
      simp only [Bool.not_eq_false] at hc
      have := (isPySpace_iff_toNat c.toLower).mp hc
      omega
    rw [l1, l2]
  · rw [toLower_eq_self_of_not_upper c h]

theorem subScanF_of_not_found (re : RE) (tmpl : Tmpl) :
    ∀ (fuel : Nat) (prev : Option Char) (s : List Char),
      findAux re prev s = false → subScanF fuel re tmpl prev s = s := by
  intro fuel
  induction fuel with
  | zero => intro prev s _; rfl
  | succ n ih =>
      intro prev s h
      cases s with
      | nil => rfl
      | cons c cs =>
          simp only [findAux, Bool.or_eq_false_iff, Bool.not_eq_false'] at h
          obtain ⟨h1, h2⟩ := h
          have hh : (mrun re (prev.map Char.toLower)
              ((c :: cs).map Char.toLower)).head? = none := by
            rw [List.head?_eq_none_iff]
            exact List.isEmpty_iff.mp h1
          simp only [subScanF, hh]
          rw [ih (some c) cs h2]

theorem reSub_of_not_found (re : RE) (tmpl : Tmpl) (s : String)
    (h : found re s = false) : reSub re tmpl s = s := by
  unfold reSub subScan
  rw [subScanF_of_not_found re tmpl _ none s.data h]

theorem runCorrections_of_not_found (t : String)
    (h : ∀ pr ∈ corrections, found pr.1 t = false) : runCorrections t = t := by
  unfold runCorrections
  have main : ∀ (l : List (RE × Tmpl)), (∀ pr ∈ l, found pr.1 t = false) →
      l.foldl (fun buf pr => reSub pr.1 pr.2 buf) t = t := by
    intro l
    induction l with
    | nil => intro _; rfl
    | cons a as ih =>
        intro hl
        simp only [List.foldl_cons]
        rw [reSub_of_not_found a.1 a.2 t (hl a (by simp))]
        exact ih (fun pr hpr => hl pr (by simp [hpr]))
  exact main corrections h

theorem findAux_congr (re : RE) :
    ∀ (s₁ s₂ : List Char) (prev₁ prev₂ : Option Char),
      prev₁.map Char.toLower = prev₂.map Char.toLower →
      s₁.map Char.toLower = s₂.map Char.toLower →
      findAux re prev₁ s₁ = findAux re prev₂ s₂ := by
  intro s₁
  induction s₁ with
  | nil =>
      intro s₂ p₁ p₂ hp hs
      cases s₂ with
      | nil => simp only [findAux, hp]
      | cons d ds => simp at hs
  | cons c cs ih =>
      intro s₂ p₁ p₂ hp hs
      cases s₂ with
      | nil => simp at hs
      | cons d ds =>
          simp only [List.map_cons, List.cons.injEq] at hs
          obtain ⟨hcd, hcs⟩ := hs
          simp only [findAux]
          rw [hp, List.map_cons, List.map_cons, hcd, hcs,
            ih ds (some c) (some d) (by simp [hcd]) hcs]

theorem capitalizeFirstL_map_toLower (l : List Char) :
    (capitalizeFirstL l).map Char.toLower = l.map Char.toLower := by
  cases l with
  | nil => rfl
  | cons c cs =>
      by_cases h : c.isLower
      · have e1 := toLower_toUpper_of_isLower c h
        have e2 := toLower_eq_self_of_isLower c h
        simp [capitalizeFirstL, h, e1, e2]
      · simp [capitalizeFirstL, h]

theorem capitalizeFirstL_idem (l : List Char) :
    capitalizeFirstL (capitalizeFirstL l) = capitalizeFirstL l := by
  cases l with
  | nil => rfl
  | cons c cs =>
      by_cases h : c.isLower
      · simp [capitalizeFirstL, h, isLower_toUpper_false c h]
      · simp [capitalizeFirstL, h]

theorem capitalizeFirstL_nospace (l : List Char) (h : ∀ c ∈ l, isPySpace c = false) :
    ∀ c ∈ capitalizeFirstL l, isPySpace c = false := by
  cases l with
  | nil => intro c hc; simp [capitalizeFirstL] at hc
  | cons a as =>
      intro c hc
      simp only [capitalizeFirstL] at hc
      by_cases ha : a.isLower
      · rw [if_pos ha] at hc
        rcases List.mem_cons.mp hc with rfl | hmem
        · rw [isPySpace_toUpper]
          exact h a (by simp)
        · exact h c (List.mem_cons_of_mem a hmem)
      · rw [if_neg ha] at hc
        exact h c hc

theorem descRange_ne_nil (n : Nat) : descRange n ≠ [] := by
  cases n <;> simp [descRange]

theorem mrun_wsP_ne_nil (p : Option Char) (c : Char) (cs : List Char)
    (h : isPySpace c = true) : mrun wsP p (c :: cs) ≠ [] := by
  simp only [wsP, mrun, ccMatch, h, if_pos]
  simp only [List.flatMap_cons, List.flatMap_nil, List.append_nil, ne_eq,
    List.map_eq_nil_iff]
  exact descRange_ne_nil _

theorem findAux_wsP_of_space :
    ∀ (s : List Char) (prev : Option Char),
      (∃ c ∈ s, isPySpace c = true) → findAux wsP prev s = true := by
  intro s
  induction s with
  | nil => intro prev h; simp at h
  | cons c cs ih =>
      intro prev h
      by_cases hc : isPySpace c = true
      · have hne : mrun wsP (Option.map Char.toLower prev)
            (c.toLower :: List.map Char.toLower cs) ≠ [] := by
          apply mrun_wsP_ne_nil
          rw [isPySpace_toLower]
          exact hc
        simp only [findAux, List.map_cons, Bool.or_eq_true]
        left
        cases hm : mrun wsP (Option.map Char.toLower prev)
            (c.toLower :: List.map Char.toLower cs) with
        | nil => exact absurd hm hne
        | cons x xs => simp [hm]
      · simp only [findAux, Bool.or_eq_true]
        right
        apply ih
        rcases h with ⟨d, hd, hds⟩
        rcases List.mem_cons.mp hd with rfl | hmem
        · exact absurd hds hc
        · exact ⟨d, hmem, hds⟩

theorem nospace_of_not_found_wsP (t : String) (h : found wsP t = false) :
    ∀ c ∈ t.data, isPySpace c = false := by
  intro c hc
  by_contra hcon
  simp only [Bool.not_eq_false] at hcon
  have htrue := findAux_wsP_of_space t.data none ⟨c, hc, hcon⟩
  rw [found] at h
  rw [h] at htrue
  exact Bool.false_ne_true htrue

theorem dropWhile_head_false {p : Char → Bool} :
    ∀ {l : List Char} {c : Char} {cs : List Char},
      l.dropWhile p = c :: cs → p c = false := by
  intro l
  induction l with
  | nil => intro c cs h; simp at h
  | cons a as ih =>
      intro c cs h
      rw [List.dropWhile_cons] at h
      by_cases ha : p a = true
      · rw [if_pos ha] at h
        exact ih h
      · rw [if_neg ha] at h
        cases h
        exact Bool.not_eq_true _ |>.mp ha

theorem pyStripL_nospace_self (l : List Char) (h : ∀ c ∈ l, isPySpace c = false) :
    pyStripL l = l := by
  have h1 : l.dropWhile isPySpace = l := by
    cases l with
    | nil => rfl
    | cons c cs => simp [List.dropWhile_cons, h c (by simp)]
  unfold pyStripL
  rw [h1]
  have h2 : l.reverse.dropWhile isPySpace = l.reverse := by
    cases hr : l.reverse with
    | nil => rfl
    | cons c cs =>
        have hm : c ∈ l := by
          rw [← List.mem_reverse, hr]
          simp
        simp [List.dropWhile_cons, h c hm]
  rw [h2, List.reverse_reverse]

theorem pyStripL_idem (l : List Char) : pyStripL (pyStripL l) = pyStripL l := by
  unfold pyStripL
  set y := l.dropWhile isPySpace with hy
  set w := y.reverse.dropWhile isPySpace with hw
  have hA : w.reverse.dropWhile isPySpace = w.reverse := by
    cases hz : w.reverse with
    | nil => rfl
    | cons c cs =>
        have hpre : w.reverse <+: y := by
          apply List.reverse_suffix.mp
          rw [List.reverse_reverse]
          exact hw ▸ List.dropWhile_suffix isPySpace
        obtain ⟨t, ht⟩ := hpre
        rw [hz] at ht
        have hchead : l.dropWhile isPySpace = c :: (cs ++ t) := by
          rw [← hy]
          exact ht.symm
        have hc : isPySpace c = false := dropWhile_head_false hchead
        simp [List.dropWhile_cons, hc]
  rw [hA, List.reverse_reverse, hw, List.dropWhile_idempotent]

theorem pyStrip_idem (s : String) : pyStrip (pyStrip s) = pyStrip s := by
  unfold pyStrip
  exact congrArg String.mk (pyStripL_idem s.data)

theorem string_mk_data_eq {s r : String} (h : s.data = r.data) : s = r := by
  rcases s with ⟨sd⟩
  rcases r with ⟨rd⟩
  cases h
  rfl

theorem capitalizeFirstL_eq_nil {l : List Char} (h : capitalizeFirstL l = []) :
    l = [] := by
  cases l with
  | nil => rfl
  | cons c cs =>
      by_cases hc : c.isLower
      · rw [capitalizeFirstL, if_pos hc] at h
        cases h
      · rw [capitalizeFirstL, if_neg hc] at h
        cases h

/-! Claim theorems. -/

set_option maxRecDepth 100000

/-- C1: with rulesFirst true, a non-empty, non-whitespace-only input
and a rule cascade that changes the text, `correct_grammar` returns
exactly the rule-cascade result with the model arm never invoked
(model call count 0), for every model-arm configuration, health and
behaviour. -/
theorem correct_rulesFirst_short_circuit (af pl : Bool)
    (po : Except Unit (List String)) (text : String)
    (h1 : text ≠ "") (h2 : pyStrip text ≠ "")
    (h3 : applyBasicGrammarRules text ≠ text) :
    correctGrammarTr true af pl po text = (applyBasicGrammarRules text, 1, 0) := by
  unfold correctGrammarTr
  rw [if_neg (by simp [h1, h2]), if_pos ⟨rfl, h3⟩]

/-- Witness for C1 at the input "i", whose cascade result is "I". -/
theorem correct_rulesFirst_short_circuit_witness :
    ("i" : String) ≠ "" ∧ pyStrip "i" ≠ "" ∧ applyBasicGrammarRules "i" ≠ "i" ∧
    correctGrammarTr true false false (Except.ok []) "i" =
      (applyBasicGrammarRules "i", 1, 0) :=
  ⟨by decide, by decide, by decide,
    correct_rulesFirst_short_circuit false false (Except.ok []) "i"
      (by decide) (by decide) (by decide)⟩

/-- C3: for every configuration, pipeline health, model behaviour and
input, `correct_grammar` is a total function whose result is the
input, the rule-cascade result, or the model-arm result; when the
model call raises, the result is the input or the rule-cascade
result; and the model arm itself maps a raised exception to the
input. -/
theorem correct_total_and_degrading (rf af pl : Bool)
    (po : Except Unit (List String)) (text : String) :
    (correctGrammar rf af pl po text = text ∨
     correctGrammar rf af pl po text = applyBasicGrammarRules text ∨
     correctGrammar rf af pl po text = correctWithAi po text) ∧
    (∀ e : Unit, po = Except.error e →
      correctGrammar rf af pl po text = text ∨
      correctGrammar rf af pl po text = applyBasicGrammarRules text) ∧
    (∀ e : Unit, correctWithAi (Except.error e) text = text) := by
  have hmain : correctGrammar rf af pl po text = text ∨
      correctGrammar rf af pl po text = applyBasicGrammarRules text ∨
      correctGrammar rf af pl po text = correctWithAi po text := by
    unfold correctGrammar correctGrammarTr
    split_ifs <;> simp
  refine ⟨hmain, ?_, fun e => rfl⟩
  intro e he
  rcases hmain with h | h | h
  · exact Or.inl h
  · exact Or.inr h
  · subst he
    exact Or.inl h

/-- Witness for C3: a raising model call on the input "hi" leaves the
result at the input or the rule-cascade output. -/
theorem correct_total_and_degrading_witness :
    correctGrammar true true true (Except.error ()) "hi" = "hi" ∨
    correctGrammar true true true (Except.error ()) "hi" =
      applyBasicGrammarRules "hi" :=
  (correct_total_and_degrading true true true (Except.error ()) "hi").2.1 () rfl

/-- C5: with rulesFirst true, an unchanged rule-cascade result and a
model arm that yields no accepted correction, `correct_grammar`
returns the input unchanged and the rule cascade is invoked exactly
once. -/
theorem correct_no_second_rule_pass (af pl : Bool)
    (po : Except Unit (List String)) (text : String)
    (h1 : text ≠ "") (h2 : pyStrip text ≠ "")
    (h3 : applyBasicGrammarRules text = text)
    (h4 : pl = true ∧ af = true →
      correctWithAi po text = text ∨ correctWithAi po text = "") :
    (correctGrammarTr true af pl po text).1 = text ∧
    (correctGrammarTr true af pl po text).2.1 = 1 := by
  unfold correctGrammarTr
  rw [if_neg (by simp [h1, h2])]
  rw [if_neg (fun hcon => hcon.2 h3)]
  rw [if_neg ?hai]
  case hai =>
    rintro ⟨hpa, hne, hnt⟩
    rcases h4 hpa with he | he
    · exact hnt he
    · exact hne he
  rw [if_neg (by simp)]
  exact ⟨rfl, rfl⟩

/-- Witness for C5 at the input "X", unchanged by the cascade, with a
healthy but empty-handed model arm. -/
theorem correct_no_second_rule_pass_witness :
    applyBasicGrammarRules "X" = "X" ∧
    (correctGrammarTr true true true (Except.ok []) "X").1 = "X" ∧
    (correctGrammarTr true true true (Except.ok []) "X").2.1 = 1 :=
  ⟨by decide,
    correct_no_second_rule_pass true true (Except.ok []) "X"
      (by decide) (by decide) (by decide) (fun _ => Or.inl (by decide))⟩

/-- C6: with the pipeline absent (degraded load) and the model
fallback enabled, `correct_grammar` returns the rule-cascade result
when it differs from the input and the input otherwise, for either
rulesFirst policy and any pipeline outcome value. -/
theorem correct_degraded_model_fallback (rf : Bool)
    (po : Except Unit (List String)) (text : String)
    (h1 : text ≠ "") (h2 : pyStrip text ≠ "") :
    correctGrammar rf true false po text =
      if applyBasicGrammarRules text = text then text
      else applyBasicGrammarRules text := by
  unfold correctGrammar correctGrammarTr
  split_ifs <;> simp_all

/-- Witness for C6 at the input "i". -/
theorem correct_degraded_model_fallback_witness :
    ("i" : String) ≠ "" ∧ pyStrip "i" ≠ "" ∧
    correctGrammar true true false (Except.ok []) "i" =
      if applyBasicGrammarRules "i" = "i" then "i"
      else applyBasicGrammarRules "i" :=
  ⟨by decide, by decide,
    correct_degraded_model_fallback true (Except.ok []) "i" (by decide) (by decide)⟩

/-- C9: on text matched by no rule pattern of the cascade, applying
the rule cascade twice equals applying it once: the once-applied
result is a fixed point. -/
theorem ruleCascade_fixed_point (t : String)
    (h : ∀ pr ∈ corrections, found pr.1 t = false) :
    applyBasicGrammarRules (applyBasicGrammarRules t) = applyBasicGrammarRules t := by
  by_cases ht : t = ""
  · subst ht
    rfl
  · have hfold : runCorrections t = t := runCorrections_of_not_found t h
    have hmem : (wsP, ([TItem.str " "] : Tmpl)) ∈ corrections := by decide
    have hws : found wsP t = false := h _ hmem
    have hns : ∀ c ∈ t.data, isPySpace c = false := nospace_of_not_found_wsP t hws
    have hcap2 : ∀ c ∈ capitalizeFirstL t.data, isPySpace c = false :=
      capitalizeFirstL_nospace t.data hns
    have happ : applyBasicGrammarRules t = capitalizeFirst t := by
      unfold applyBasicGrammarRules pyStrip capitalizeFirst
      rw [if_neg ht, hfold]
      exact congrArg String.mk (pyStripL_nospace_self _ hcap2)
    rw [happ]
    have hct : capitalizeFirst t ≠ "" := by
      intro hc
      apply ht
      have hd : capitalizeFirstL t.data = [] := congrArg String.data hc
      exact string_mk_data_eq (capitalizeFirstL_eq_nil hd)
    have hfound2 : ∀ pr ∈ corrections, found pr.1 (capitalizeFirst t) = false := by
      intro pr hpr
      rw [← h pr hpr]
      unfold found
      exact findAux_congr pr.1 (capitalizeFirst t).data t.data none none rfl
        (capitalizeFirstL_map_toLower t.data)
    have hfold2 : runCorrections (capitalizeFirst t) = capitalizeFirst t :=
      runCorrections_of_not_found _ hfound2
    unfold applyBasicGrammarRules
    rw [if_neg hct, hfold2]
    have hci : capitalizeFirst (capitalizeFirst t) = capitalizeFirst t := by
      unfold capitalizeFirst
      exact congrArg String.mk (capitalizeFirstL_idem t.data)
    rw [hci]
    unfold pyStrip capitalizeFirst
    exact congrArg String.mk (pyStripL_nospace_self _ hcap2)

/-- Witness for C9 at the input "X", matched by no rule. -/
theorem ruleCascade_fixed_point_witness :
    (∀ pr ∈ corrections, found pr.1 "X" = false) ∧
    applyBasicGrammarRules (applyBasicGrammarRules "X") =
      applyBasicGrammarRules "X" :=
  ⟨by decide, ruleCascade_fixed_point "X" (by decide)⟩

/-- C10: the rule-cascade result never carries leading or trailing
whitespace: it equals its own strip, for every input. -/
theorem ruleCascade_result_stripped (text : String) :
    pyStrip (applyBasicGrammarRules text) = applyBasicGrammarRules text := by
  unfold applyBasicGrammarRules
  by_cases h : text = ""
  · rw [if_pos h, h]
    decide
  · rw [if_neg h]
    exact pyStrip_idem _

/-- C2 counterexample: the whitespace-only input " " is not returned
unchanged by `_apply_basic_grammar_rules`, and the final strip is a
transformation the claimed contract omits: the code returns the empty
string where the claimed contract returns " ". -/
theorem ruleCascade_contract_counterexample :
    applyBasicGrammarRules " " = "" ∧ ruleCascadeSpec " " = " " ∧
    ("" : String) ≠ " " :=
  ⟨by decide, by decide, by decide⟩

/-- C2 amended: only the empty input is returned unchanged; every
other input, including whitespace-only input, is the rule fold in
declaration order, then capitalization of a lowercase first
character, then a final strip. -/
theorem ruleCascade_pipeline (text : String) (h : text ≠ "") :
    applyBasicGrammarRules text = pyStrip (capitalizeFirst (runCorrections text)) := by
  unfold applyBasicGrammarRules
  rw [if_neg h]

/-- Witness for the amended C2 at the whitespace-only input. -/
theorem ruleCascade_pipeline_witness :
    (" " : String) ≠ "" ∧
    applyBasicGrammarRules " " = pyStrip (capitalizeFirst (runCorrections " ")) :=
  ⟨by decide, ruleCascade_pipeline " " (by decide)⟩

/-- C4 counterexample: raw model output differing from the input only
in letter case is not treated as NoCorrection: the model arm returns
the model output, not the original text. -/
theorem sanitizer_case_counterexample :
    correctWithAi (Except.ok ["HELLO"]) "hello" = "HELLO" ∧
    lowerStr "HELLO" = lowerStr "hello" ∧
    ("HELLO" : String) ≠ "hello" :=
  ⟨by decide, by decide, by decide⟩

/-- C4 amended: after prefix stripping and trimming, the no-op test
is an exact, case-sensitive comparison: the model arm yields the
original text exactly when the sanitized output is empty or equal to
the input, and otherwise returns the sanitized output, even one
differing from the input only in case. -/
theorem sanitizer_exact_comparison (text gtext : String) (rest : List String) :
    ((sanitizeOutput (pyStrip gtext) = text ∨ sanitizeOutput (pyStrip gtext) = "") →
      correctWithAi (Except.ok (gtext :: rest)) text = text) ∧
    (sanitizeOutput (pyStrip gtext) ≠ text → sanitizeOutput (pyStrip gtext) ≠ "" →
      correctWithAi (Except.ok (gtext :: rest)) text = sanitizeOutput (pyStrip gtext)) := by
  constructor
  · intro h
    show (if sanitizeOutput (pyStrip gtext) = text ∨ sanitizeOutput (pyStrip gtext) = ""
        then text else sanitizeOutput (pyStrip gtext)) = text
    rw [if_pos h]
  · intro h1 h2
    show (if sanitizeOutput (pyStrip gtext) = text ∨ sanitizeOutput (pyStrip gtext) = ""
        then text else sanitizeOutput (pyStrip gtext)) = sanitizeOutput (pyStrip gtext)
    rw [if_neg (fun hc => hc.elim h1 h2)]

/-- Witness for the amended C4: a recognised prefix plus the input
itself is a NoCorrection, so the model arm returns the input. -/
theorem sanitizer_exact_comparison_witness :
    sanitizeOutput (pyStrip "grammar: hello") = "hello" ∧
    correctWithAi (Except.ok ["grammar: hello"]) "hello" = "hello" :=
  ⟨by decide,
    (sanitizer_exact_comparison "hello" "grammar: hello" []).1 (Or.inl (by decide))⟩

/-- C7 counterexample: on the input "how is you?" under the default
policy the code returns "How is you?", not "How are you?": no
subject-verb rule matches the inverted order. -/
theorem correct_how_is_you_counterexample :
    correctGrammar true true true (Except.ok []) "how is you?" = "How is you?" ∧
    ("How is you?" : String) ≠ "How are you?" :=
  ⟨by decide, by decide⟩

/-- C7 amended: on the input "how is you?" with rulesFirst true,
`correct_grammar` returns "How is you?": the cascade only
capitalizes the first letter, since no rule pattern matches the
inverted "is you", and short-circuits for any model-arm
configuration. -/
theorem correct_how_is_you (af pl : Bool) (po : Except Unit (List String)) :
    correctGrammarTr true af pl po "how is you?" = ("How is you?", 1, 0) := by
  have hb : applyBasicGrammarRules "how is you?" = "How is you?" := by decide
  unfold correctGrammarTr
  rw [if_neg (by decide), hb, if_pos ⟨rfl, by decide⟩]

/-- C8 counterexample: on the input "she dont like it" the code
returns "She don\x27t like it", not "She doesn\x27t like it": the informal
contraction rule rewrites dont to the contraction of do, not of
does. -/
theorem correct_she_dont_counterexample :
    correctGrammar true true true (Except.ok []) "she dont like it" =
      "She don\x27t like it" ∧
    ("She don\x27t like it" : String) ≠ "She doesn\x27t like it" :=
  ⟨by decide, by decide⟩

/-- C8 amended: on the input "she dont like it" with rulesFirst true,
`correct_grammar` returns "She don\x27t like it", short-circuiting for
any model-arm configuration. -/
theorem correct_she_dont (af pl : Bool) (po : Except Unit (List String)) :
    correctGrammarTr true af pl po "she dont like it" =
      ("She don\x27t like it", 1, 0) := by
  have hb : applyBasicGrammarRules "she dont like it" = "She don\x27t like it" := by
    decide
  unfold correctGrammarTr
  rw [if_neg (by decide), hb, if_pos ⟨rfl, by decide⟩]

end GrammarApp
